import Mathlib

/-!
Verification of the text-normalization layer of the job-listing ETL
repository: the salary parser `_parse_salary` and city extractor
`_extract_city_smart` of `src/etl_pipeline.py`, the degree chain of
`_parse_exp_degree`, the OCR salary cleaner `clean_salary` of
`src/spider_pro.py`, and the plausibility-band filters of
`clean_data` / `load_and_preprocess`.

Conventions of the embedding:
* Python strings are Lean `String` / `List Char`; Python `int(...)` on a
  digit string is `natOfDigits`, `str(...)` on a natural is `natDigits`.
* Python numbers are embedded in `ℚ` (exact arithmetic; the source's
  float rounding is irrelevant at the scales involved).
* The regular expressions of the source are embedded as explicit
  leftmost-match scanners equivalent to the patterns used there.
* A rejected parse (the source's `(np.nan, np.nan, np.nan)` / `None`)
  is `none`.
-/

namespace JobEtl

/-- Numeric value of a decimal digit character. -/
def digitVal (c : Char) : ℕ := c.toNat - 48

/-- Value of a decimal digit string, most significant digit first
(Python `int(s)` on a digit-only string). -/
def natOfDigits (l : List Char) : ℕ := l.foldl (fun n c => 10 * n + digitVal c) 0

/-- Fueled decimal rendering of a natural number. -/
def natDigitsAux : ℕ → ℕ → List Char
  | 0, _ => []
  | f + 1, n =>
    if n < 10 then [Char.ofNat (48 + n)]
    else natDigitsAux f (n / 10) ++ [Char.ofNat (48 + n % 10)]

/-- Decimal rendering of a natural number (Python `str(n)`). -/
def natDigits (n : ℕ) : List Char := natDigitsAux (n + 1) n

/-- `str.strip()` of Python on a character list: whitespace removed from
both ends (the inputs of interest carry only ASCII whitespace). -/
def stripEnds (l : List Char) : List Char :=
  ((l.dropWhile Char.isWhitespace).reverse.dropWhile Char.isWhitespace).reverse

/-- `str(x).upper().strip()` performed by `_parse_salary` on its input. -/
def cleanToken (s : String) : List Char := stripEnds (s.data.map Char.toUpper)

/-- Maximal leading digit run of a character list, together with the rest. -/
def digitRun : List Char → List Char × List Char
  | [] => ([], [])
  | c :: cs =>
    if c.isDigit then (c :: (digitRun cs).1, (digitRun cs).2)
    else ([], c :: cs)

/-- Match of the regex `(\d+)\s*-\s*(\d+)` anchored at the head of `l`,
returning the two captured integers.  The pattern admits no productive
backtracking, so greedy runs followed by the literal dash are exact. -/
def matchPairAt (l : List Char) : Option (ℕ × ℕ) :=
  if (digitRun l).1 = [] then none
  else if ((digitRun l).2.dropWhile Char.isWhitespace).head? = some '-' then
    if (digitRun (((digitRun l).2.dropWhile Char.isWhitespace).tail.dropWhile
        Char.isWhitespace)).1 = [] then none
    else some (natOfDigits (digitRun l).1,
      natOfDigits (digitRun (((digitRun l).2.dropWhile Char.isWhitespace).tail.dropWhile
        Char.isWhitespace)).1)
  else none

/-- Leftmost match of `(\d+)\s*-\s*(\d+)` (Python `re.search`). -/
def searchPair : List Char → Option (ℕ × ℕ)
  | [] => none
  | c :: cs =>
    match matchPairAt (c :: cs) with
    | some p => some p
    | none => searchPair cs

/-- First maximal digit run of `l` (`re.findall(r'\d+', s)[0]`). -/
def firstDigitRun : List Char → Option (List Char)
  | [] => none
  | c :: cs => if c.isDigit then some (digitRun (c :: cs)).1 else firstDigitRun cs

/-- Safety guard, low/high swap and scaling shared by both branches of
`_parse_salary` (lines 120-126 and lines 150-159 of the source). -/
def salaryFinishQ (low high : ℚ) : Option (ℚ × ℚ × ℚ) :=
  if 200 < low ∨ 200 < high then none
  else if high < low then some (high * 1000, low * 1000, (low + high) * 500)
  else some (low * 1000, high * 1000, (low + high) * 500)

/-- Hyphenated branch of `_parse_salary` (lines 105-126), applied to the
two integers captured by the range regex. -/
def hyphenParse (low high : ℕ) : Option (ℚ × ℚ × ℚ) :=
  if 50 < low ∨ 50 < high then
    if 1000 < low then salaryFinishQ ((low : ℚ) / 1000) ((high : ℚ) / 1000)
    else salaryFinishQ low high
  else salaryFinishQ low high

/-- Fused-digit fallback of `_parse_salary` (lines 128-159): first digit
run, split by the decimal length of its integer value. -/
def fusedSalary (l : List Char) : Option (ℚ × ℚ × ℚ) :=
  match firstDigitRun l with
  | none => none
  | some ds =>
    if 200 < natOfDigits ds then
      if (natDigits (natOfDigits ds)).length = 4 then
        salaryFinishQ (natOfDigits ((natDigits (natOfDigits ds)).take 2))
          (natOfDigits ((natDigits (natOfDigits ds)).drop 2))
      else if (natDigits (natOfDigits ds)).length = 3 then
        salaryFinishQ (natOfDigits ((natDigits (natOfDigits ds)).take 1))
          (natOfDigits ((natDigits (natOfDigits ds)).drop 1))
      else none
    else salaryFinishQ (natOfDigits ds) (natOfDigits ds)

/-- `_parse_salary` of `src/etl_pipeline.py` on a string input.  (A NaN
input is rejected before any of the logic modelled here.) -/
def parseSalary (s : String) : Option (ℚ × ℚ × ℚ) :=
  if (cleanToken s).contains '-' then
    match searchPair (cleanToken s) with
    | some p => hyphenParse p.1 p.2
    | none => fusedSalary (cleanToken s)
  else fusedSalary (cleanToken s)

/-- The literal salary token `<a>-<b>K`. -/
def hyphenTok (a b : ℕ) : String :=
  String.mk (natDigits a ++ '-' :: (natDigits b ++ ['K']))

/-- The literal fused salary token `<v>K`. -/
def fusedTok (v : ℕ) : String := String.mk (natDigits v ++ ['K'])

/-- Substring containment on character lists (Python `sub in s`). -/
def isSubL : List Char → List Char → Bool
  | n, [] => n.isEmpty
  | n, c :: cs => n.isPrefixOf (c :: cs) || isSubL n cs

/-- Python substring containment `sub in s` on strings. -/
def pyContains (sub s : String) : Bool := isSubL sub.data s.data

/-- Degree chain of `_parse_exp_degree` (lines 175-186 of
`src/etl_pipeline.py`).  The Python condition
`"学历不限" in text or "学历要求" in text and "不限" in text` parses as
`A or (B and C)`.  The experience value computed in the same function does
not influence the degree code. -/
def degreeValue (text : String) : ℕ :=
  if pyContains "学历不限" text ||
      (pyContains "学历要求" text && pyContains "不限" text) then 0
  else if pyContains "博士" text then 4
  else if pyContains "硕士" text then 3
  else if pyContains "本科" text then 2
  else if pyContains "大专" text then 1
  else 0

/-- Python `str.isalnum` for the character classes that occur in the scraped
data: ASCII alphanumerics plus CJK unified ideographs (which Python counts as
alphanumeric letters). -/
def pyIsAlnum (c : Char) : Bool :=
  c.isAlphanum || (0x4E00 ≤ c.toNat && c.toNat ≤ 0x9FFF)

/-- Character filter and uppercasing of `clean_salary` line 56 of
`src/spider_pro.py`: keep alphanumerics, dash and dot, then uppercase. -/
def cleanOCR (s : String) : List Char :=
  (s.data.filter (fun c => pyIsAlnum c || c = '-' || c = '.')).map Char.toUpper

/-- Match of the regex `\d+-\d+K` anchored at the head of `l`, returning the
matched substring.  No productive backtracking exists for this pattern, so
greedy digit runs followed by the literals are exact. -/
def matchDashKAt (l : List Char) : Option (List Char) :=
  if (digitRun l).1 = [] then none
  else if (digitRun l).2.head? = some '-' then
    if (digitRun ((digitRun l).2.tail)).1 = [] then none
    else if (digitRun ((digitRun l).2.tail)).2.head? = some 'K' then
      some ((digitRun l).1 ++ '-' :: ((digitRun ((digitRun l).2.tail)).1 ++ ['K']))
    else none
  else none

/-- Leftmost match of `\d+-\d+K` (Python `re.search` in `clean_salary`). -/
def searchDashK : List Char → Option (List Char)
  | [] => none
  | c :: cs =>
    match matchDashKAt (c :: cs) with
    | some m => some m
    | none => searchDashK cs

/-- Match of the anchored regex `^(\d+)K`, returning the captured digits. -/
def anchorDigitsK (l : List Char) : Option (List Char) :=
  if (digitRun l).1 = [] then none
  else if (digitRun l).2.head? = some 'K' then some (digitRun l).1
  else none

/-- `clean_salary` of `src/spider_pro.py` (lines 45-90).  The Python guard
`if not raw_str` also catches `None`, which is outside the string model. -/
def cleanSalary (s : String) : Option String :=
  if s.data = [] then none
  else
    match searchDashK (cleanOCR s) with
    | some m => some (String.mk m)
    | none =>
      match anchorDigitsK (cleanOCR s) with
      | none => none
      | some ds =>
        if 100 < natOfDigits ds ∧ ds.length = 4 ∧
            natOfDigits (ds.take 2) < natOfDigits (ds.drop 2) then
          some (String.mk (ds.take 2 ++ '-' :: (ds.drop 2 ++ ['K'])))
        else if 100 < natOfDigits ds ∧ ds.length = 3 ∧
            natOfDigits (ds.take 1) < natOfDigits (ds.drop 1) then
          some (String.mk (ds.take 1 ++ '-' :: (ds.drop 1 ++ ['K'])))
        else if natOfDigits ds ≤ 200 then some (String.mk (cleanOCR s))
        else none

/-- Known city names of `_extract_city_smart` (line 56). -/
def targetCities : List String :=
  ["南京", "北京", "上海", "广州", "深圳", "杭州", "成都", "武汉", "西安",
    "苏州", "长沙", "重庆", "合肥"]

/-- Company keywords of `_extract_city_smart` (line 57). -/
def companyKeywords : List String :=
  ["公司", "科技", "集团", "银行", "软件", "服务", "中心", "大学", "厂", "局"]

/-- One iteration of the reverse scan of `_extract_city_smart`
(lines 60-92): `none` means the line is skipped and the scan continues. -/
def scanLine (line : String) : Option String :=
  if stripEnds line.data = [] then none
  else if (stripEnds line.data).contains '·' &&
      targetCities.any (fun c => isSubL c.data
        ((stripEnds line.data).takeWhile (fun x => x != '·'))) then
    some (String.mk ((stripEnds line.data).takeWhile (fun x => x != '·')))
  else
    match targetCities.find? (fun c => isSubL c.data (stripEnds line.data)) with
    | none => none
    | some city =>
      if (stripEnds line.data).length ≤ 3 ∧ stripEnds line.data = city.data then
        some city
      else if companyKeywords.any
          (fun kw => isSubL kw.data (stripEnds line.data)) = false then
        some city
      else none

/-- First `some` produced by a scan, in order (the `return` of the loop). -/
def firstSome : List (Option String) → Option String
  | [] => none
  | none :: rest => firstSome rest
  | some x :: _ => some x

/-- `_extract_city_smart` on the list of lines of the raw text. -/
def extractCityLines (lines : List String) : String :=
  match firstSome (lines.reverse.map scanLine) with
  | some c => c
  | none => "未知"

/-- Python `raw_text.split('\n')` on a character list. -/
def splitLines : List Char → List (List Char)
  | [] => [[]]
  | c :: cs =>
    if c = '\n' then [] :: splitLines cs
    else
      match splitLines cs with
      | [] => [[c]]
      | h :: t => (c :: h) :: t

/-- `_extract_city_smart` of `src/etl_pipeline.py` on the raw text block. -/
def extractCity (raw : String) : String :=
  extractCityLines ((splitLines raw.data).map String.mk)

/-- Salary-stage row flow of `clean_data` (lines 200-212 of
`src/etl_pipeline.py`): parse each salary string, drop parse failures
(`dropna`), then keep only rows whose average is strictly inside the
plausibility band `(2000, 50000)`. -/
def etlSalaryRows (salaries : List String) : List (ℚ × ℚ × ℚ) :=
  (salaries.filterMap parseSalary).filter
    (fun t => decide (t.2.2 < 50000) && decide (2000 < t.2.2))

/-- Re-validation of `load_and_preprocess` (lines 55-69 of
`src/model_train.py`): drop rows with degree code 0, then rows whose average
salary is not below 50000.  A table row is modelled by its
`(degree_value, avg_salary)` pair. -/
def trainRows (rows : List (ℕ × ℚ)) : List (ℕ × ℚ) :=
  (rows.filter (fun r => decide (0 < r.1))).filter (fun r => decide (r.2 < 50000))

theorem natDigitsAux_congr : ∀ f g n : ℕ, n < f → n < g →
    natDigitsAux f n = natDigitsAux g n := by
  intro f
  induction f with
  | zero => intro g n h; omega
  | succ f ih =>
    intro g n hf hg
    cases g with
    | zero => omega
    | succ g =>
      by_cases h : n < 10
      · simp [natDigitsAux, h]
      · have hdiv : n / 10 < n := Nat.div_lt_self (by omega) (by norm_num)
        simp only [natDigitsAux, if_neg h]
        rw [ih g (n / 10) (by omega) (by omega)]

theorem natDigits_eq (n : ℕ) : natDigits n =
    if n < 10 then [Char.ofNat (48 + n)]
    else natDigits (n / 10) ++ [Char.ofNat (48 + n % 10)] := by
  by_cases h : n < 10
  · simp [natDigits, natDigitsAux, h]
  · have hdiv : n / 10 < n := Nat.div_lt_self (by omega) (by norm_num)
    rw [if_neg h]
    have step : natDigitsAux (n + 1) n =
        natDigitsAux n (n / 10) ++ [Char.ofNat (48 + n % 10)] := by
      rw [natDigitsAux, if_neg h]
    unfold natDigits
    rw [step, natDigitsAux_congr n (n / 10 + 1) (n / 10) (by omega) (by omega)]

theorem mem_natDigits_shape (n : ℕ) :
    ∀ c ∈ natDigits n, ∃ r, r < 10 ∧ c = Char.ofNat (48 + r) := by
  induction n using Nat.strong_induction_on with
  | _ n ih =>
    intro c hc
    rw [natDigits_eq] at hc
    by_cases h : n < 10
    · rw [if_pos h] at hc
      simp only [List.mem_singleton] at hc
      exact ⟨n, h, hc⟩
    · rw [if_neg h] at hc
      rcases List.mem_append.mp hc with h1 | h2
      · exact ih (n / 10) (Nat.div_lt_self (by omega) (by norm_num)) c h1
      · simp only [List.mem_singleton] at h2
        exact ⟨n % 10, Nat.mod_lt _ (by norm_num), h2⟩

theorem digitVal_ofNat {r : ℕ} (h : r < 10) : digitVal (Char.ofNat (48 + r)) = r := by
  interval_cases r <;> decide

theorem natDigits_ne_nil (n : ℕ) : natDigits n ≠ [] := by
  rw [natDigits_eq]
  by_cases h : n < 10 <;> simp [h]

theorem natOfDigits_append (l₁ l₂ : List Char) :
    natOfDigits (l₁ ++ l₂) = natOfDigits l₁ * 10 ^ l₂.length + natOfDigits l₂ := by
  induction l₂ using List.reverseRecOn with
  | nil => simp [natOfDigits]
  | append_singleton l c ih =>
    simp only [natOfDigits, ← List.append_assoc, List.foldl_append, List.foldl_cons,
      List.foldl_nil] at *
    rw [ih]
    simp [List.length_append, pow_succ]
    ring

theorem natOfDigits_natDigits (n : ℕ) : natOfDigits (natDigits n) = n := by
  induction n using Nat.strong_induction_on with
  | _ n ih =>
    rw [natDigits_eq]
    by_cases h : n < 10
    · rw [if_pos h]
      show natOfDigits [Char.ofNat (48 + n)] = n
      simp [natOfDigits, digitVal_ofNat h]
    · rw [if_neg h]
      rw [natOfDigits_append]
      have h1 : natOfDigits (natDigits (n / 10)) = n / 10 :=
        ih (n / 10) (Nat.div_lt_self (by omega) (by norm_num))
      have h2 : natOfDigits [Char.ofNat (48 + n % 10)] = n % 10 := by
        simp [natOfDigits, digitVal_ofNat (Nat.mod_lt n (by norm_num) : n % 10 < 10)]
      rw [h1, h2]
      simp
      omega

theorem natOfDigits_lt (l : List Char)
    (h : ∀ c ∈ l, ∃ r, r < 10 ∧ c = Char.ofNat (48 + r)) :
    natOfDigits l < 10 ^ l.length := by
  induction l using List.reverseRecOn with
  | nil => simp [natOfDigits]
  | append_singleton l c ih =>
    rw [natOfDigits_append]
    obtain ⟨r, hr, hc⟩ := h c (by simp)
    have hd : natOfDigits [c] = r := by simp [natOfDigits, hc, digitVal_ofNat hr]
    have hl : natOfDigits l < 10 ^ l.length := ih fun c hc => h c (by simp [hc])
    rw [hd]
    simp only [List.length_append, List.length_singleton, pow_succ, pow_one]
    omega

theorem natDigits_length (k : ℕ) : ∀ n, 10 ^ k ≤ n → n < 10 ^ (k + 1) →
    (natDigits n).length = k + 1 := by
  induction k with
  | zero =>
    intro n h1 h2
    rw [natDigits_eq, if_pos (by omega : n < 10)]
    rfl
  | succ k ih =>
    intro n h1 h2
    have h10 : ¬ n < 10 := by
      have : (10 : ℕ) ≤ 10 ^ (k + 1) := by
        calc (10 : ℕ) = 10 ^ 1 := (pow_one 10).symm
        _ ≤ 10 ^ (k + 1) := Nat.pow_le_pow_right (by norm_num) (by omega)
      omega
    rw [natDigits_eq, if_neg h10]
    have hlow : 10 ^ k ≤ n / 10 := by
      rw [Nat.le_div_iff_mul_le (by norm_num : 0 < 10)]
      calc 10 ^ k * 10 = 10 ^ (k + 1) := by rw [pow_succ]
      _ ≤ n := h1
    have hhigh : n / 10 < 10 ^ (k + 1) := by
      rw [Nat.div_lt_iff_lt_mul (by norm_num : 0 < 10)]
      calc n < 10 ^ (k + 1 + 1) := h2
      _ = 10 ^ (k + 1) * 10 := by rw [pow_succ]
    rw [List.length_append, ih (n / 10) hlow hhigh]
    rfl

theorem digitChar_isDigit {r : ℕ} (h : r < 10) :
    (Char.ofNat (48 + r)).isDigit = true := by
  interval_cases r <;> decide

theorem digitChar_notWS {r : ℕ} (h : r < 10) :
    (Char.ofNat (48 + r)).isWhitespace = false := by
  interval_cases r <;> decide

theorem digitChar_toUpper {r : ℕ} (h : r < 10) :
    (Char.ofNat (48 + r)).toUpper = Char.ofNat (48 + r) := by
  interval_cases r <;> decide

theorem digitChar_ne_hyphen {r : ℕ} (h : r < 10) : Char.ofNat (48 + r) ≠ '-' := by
  interval_cases r <;> decide

theorem mem_natDigits_isDigit {n : ℕ} {c : Char} (h : c ∈ natDigits n) :
    c.isDigit = true := by
  obtain ⟨r, hr, rfl⟩ := mem_natDigits_shape n c h
  exact digitChar_isDigit hr

theorem dropWhile_eq_self_of_not {p : Char → Bool} {l : List Char}
    (h : ∀ c ∈ l, p c = false) : l.dropWhile p = l := by
  cases l with
  | nil => rfl
  | cons c cs => simp [List.dropWhile_cons, h c (by simp)]

theorem stripEnds_id {l : List Char} (h : ∀ c ∈ l, c.isWhitespace = false) :
    stripEnds l = l := by
  unfold stripEnds
  rw [dropWhile_eq_self_of_not h,
    dropWhile_eq_self_of_not (fun c hc => h c (List.mem_reverse.mp hc)),
    List.reverse_reverse]

theorem map_toUpper_id {l : List Char} (h : ∀ c ∈ l, c.toUpper = c) :
    l.map Char.toUpper = l := by
  induction l with
  | nil => rfl
  | cons c cs ih => simp [h c (by simp), ih (fun x hx => h x (by simp [hx]))]

theorem cleanToken_mk {l : List Char}
    (hup : ∀ c ∈ l, c.toUpper = c) (hws : ∀ c ∈ l, c.isWhitespace = false) :
    cleanToken (String.mk l) = l := by
  show stripEnds ((String.mk l).data.map Char.toUpper) = l
  rw [show (String.mk l).data = l from rfl, map_toUpper_id hup, stripEnds_id hws]

theorem digitRun_digits {ds rest : List Char}
    (hd : ∀ c ∈ ds, c.isDigit = true)
    (hr : ∀ c, rest.head? = some c → c.isDigit = false) :
    digitRun (ds ++ rest) = (ds, rest) := by
  induction ds with
  | nil =>
    cases rest with
    | nil => rfl
    | cons c cs => simp [digitRun, hr c rfl]
  | cons c cs ih =>
    have hc : c.isDigit = true := hd c (by simp)
    have ihh := ih fun x hx => hd x (List.mem_cons_of_mem c hx)
    simp only [List.cons_append, digitRun, hc, if_pos]
    rw [show cs.append rest = cs ++ rest from rfl, ihh]

theorem natDigits_cons (n : ℕ) : ∃ c cs, natDigits n = c :: cs := by
  cases h : natDigits n with
  | nil => exact absurd h (natDigits_ne_nil n)
  | cons c cs => exact ⟨c, cs, rfl⟩

theorem hyphenTok_chars (a b : ℕ) :
    ∀ c ∈ natDigits a ++ '-' :: (natDigits b ++ ['K']),
      c.toUpper = c ∧ c.isWhitespace = false := by
  intro c hc
  rcases List.mem_append.mp hc with h | h
  · obtain ⟨r, hr, rfl⟩ := mem_natDigits_shape a c h
    exact ⟨digitChar_toUpper hr, digitChar_notWS hr⟩
  · rcases List.mem_cons.mp h with rfl | h
    · exact ⟨by decide, by decide⟩
    · rcases List.mem_append.mp h with h | h
      · obtain ⟨r, hr, rfl⟩ := mem_natDigits_shape b c h
        exact ⟨digitChar_toUpper hr, digitChar_notWS hr⟩
      · simp only [List.mem_singleton] at h
        subst h
        exact ⟨by decide, by decide⟩

theorem fusedTok_chars (v : ℕ) :
    ∀ c ∈ natDigits v ++ ['K'],
      c.toUpper = c ∧ c.isWhitespace = false ∧ c ≠ '-' := by
  intro c hc
  rcases List.mem_append.mp hc with h | h
  · obtain ⟨r, hr, rfl⟩ := mem_natDigits_shape v c h
    exact ⟨digitChar_toUpper hr, digitChar_notWS hr, digitChar_ne_hyphen hr⟩
  · simp only [List.mem_singleton] at h
    subst h
    exact ⟨by decide, by decide, by decide⟩

theorem matchPairAt_hyphenTok (a b : ℕ) :
    matchPairAt (natDigits a ++ '-' :: (natDigits b ++ ['K'])) = some (a, b) := by
  obtain ⟨c, cs, hb⟩ := natDigits_cons b
  have hcmem : c ∈ natDigits b := by rw [hb]; simp
  have hcws : c.isWhitespace = false := by
    obtain ⟨r, hr, hc⟩ := mem_natDigits_shape b c hcmem
    rw [hc]; exact digitChar_notWS hr
  have h1 : digitRun (natDigits a ++ '-' :: (natDigits b ++ ['K'])) =
      (natDigits a, '-' :: (natDigits b ++ ['K'])) :=
    digitRun_digits (fun x hx => mem_natDigits_isDigit hx)
      (by intro x hx; simp only [List.head?_cons, Option.some_inj] at hx
          rw [← hx]; decide)
  have h2 : digitRun (natDigits b ++ ['K']) = (natDigits b, ['K']) :=
    digitRun_digits (fun x hx => mem_natDigits_isDigit hx)
      (by intro x hx; simp only [List.head?_cons, Option.some_inj] at hx
          rw [← hx]; decide)
  have hd1 : ('-' :: (natDigits b ++ ['K'])).dropWhile Char.isWhitespace =
      '-' :: (natDigits b ++ ['K']) := by
    rw [List.dropWhile_cons]; simp
  have hd2 : (natDigits b ++ ['K']).dropWhile Char.isWhitespace =
      natDigits b ++ ['K'] := by
    rw [hb, List.cons_append, List.dropWhile_cons, hcws]
    simp
  unfold matchPairAt
  rw [h1]
  rw [if_neg (natDigits_ne_nil a)]
  simp only [hd1, List.head?_cons, List.tail_cons, hd2, h2]
  rw [if_pos trivial, if_neg (natDigits_ne_nil b), natOfDigits_natDigits,
    natOfDigits_natDigits]

theorem searchPair_hyphenTok (a b : ℕ) :
    searchPair (natDigits a ++ '-' :: (natDigits b ++ ['K'])) = some (a, b) := by
  obtain ⟨c, cs, ha⟩ := natDigits_cons a
  have h := matchPairAt_hyphenTok a b
  rw [ha, List.cons_append] at h ⊢
  unfold searchPair
  rw [h]

theorem contains_hyphenTok (a b : ℕ) :
    (natDigits a ++ '-' :: (natDigits b ++ ['K'])).contains '-' = true := by
  simp [List.contains]

theorem contains_fusedTok (v : ℕ) :
    (natDigits v ++ ['K']).contains '-' = false := by
  have h : '-' ∉ natDigits v ++ ['K'] := by
    intro hmem
    exact absurd rfl (fusedTok_chars v '-' hmem).2.2
  simpa [List.contains] using h

theorem parseSalary_hyphenTok (a b : ℕ) :
    parseSalary (hyphenTok a b) = hyphenParse a b := by
  unfold parseSalary hyphenTok
  rw [cleanToken_mk (fun c hc => (hyphenTok_chars a b c hc).1)
    (fun c hc => (hyphenTok_chars a b c hc).2)]
  rw [if_pos (contains_hyphenTok a b), searchPair_hyphenTok]

theorem firstDigitRun_fusedTok (v : ℕ) :
    firstDigitRun (natDigits v ++ ['K']) = some (natDigits v) := by
  obtain ⟨c, cs, hv⟩ := natDigits_cons v
  have hcdig : c.isDigit = true := mem_natDigits_isDigit (by rw [hv]; simp)
  have h2 : digitRun (natDigits v ++ ['K']) = (natDigits v, ['K']) :=
    digitRun_digits (fun x hx => mem_natDigits_isDigit hx)
      (by intro x hx; simp only [List.head?_cons, Option.some_inj] at hx
          rw [← hx]; decide)
  rw [hv, List.cons_append] at h2 ⊢
  unfold firstDigitRun
  rw [if_pos hcdig, h2, ← hv]

theorem fusedSalary_natDigits (v : ℕ) :
    fusedSalary (natDigits v ++ ['K']) =
      if 200 < v then
        if (natDigits v).length = 4 then
          salaryFinishQ (natOfDigits ((natDigits v).take 2))
            (natOfDigits ((natDigits v).drop 2))
        else if (natDigits v).length = 3 then
          salaryFinishQ (natOfDigits ((natDigits v).take 1))
            (natOfDigits ((natDigits v).drop 1))
        else none
      else salaryFinishQ v v := by
  unfold fusedSalary
  rw [firstDigitRun_fusedTok]
  simp only [natOfDigits_natDigits]

theorem parseSalary_fusedTok (v : ℕ) :
    parseSalary (fusedTok v) = fusedSalary (natDigits v ++ ['K']) := by
  unfold parseSalary fusedTok
  rw [cleanToken_mk (fun c hc => (fusedTok_chars v c hc).1)
    (fun c hc => (fusedTok_chars v c hc).2.1)]
  rw [contains_fusedTok]
  simp

theorem hyphenParse_small {a : ℕ} (b : ℕ) (ha : a ≤ 1000) :
    hyphenParse a b = salaryFinishQ a b := by
  unfold hyphenParse
  split_ifs with h1 h2
  · omega
  · rfl
  · rfl

theorem salaryFinishQ_of_le {a b : ℕ} (hab : a ≤ b) (hb : b ≤ 200) :
    salaryFinishQ a b =
      some ((a : ℚ) * 1000, (b : ℚ) * 1000, ((a : ℚ) + (b : ℚ)) * 500) := by
  have haq : (a : ℚ) ≤ 200 := by exact_mod_cast le_trans hab hb
  have hbq : (b : ℚ) ≤ 200 := by exact_mod_cast hb
  have habq : (a : ℚ) ≤ (b : ℚ) := by exact_mod_cast hab
  unfold salaryFinishQ
  rw [if_neg (by push_neg; exact ⟨haq, hbq⟩), if_neg (not_lt.mpr habq)]

theorem salaryFinishQ_reject {l h : ℚ} (hh : 200 < h) : salaryFinishQ l h = none := by
  unfold salaryFinishQ
  rw [if_pos (Or.inr hh)]

theorem parseSalary_eval_15_25 : parseSalary "15-25K" = some (15000, 25000, 20000) := by
  have h : hyphenTok 15 25 = "15-25K" := by decide
  rw [← h, parseSalary_hyphenTok, hyphenParse_small 25 (by norm_num),
    salaryFinishQ_of_le (by norm_num) (by norm_num)]
  norm_num

/-- Claim C1: every salary token `<a>-<b>K` with integers `a ≤ b ≤ 200` parses
to the triple `(a*1000, b*1000, (a+b)*500)`; in particular `"15-25K"` parses
to `(15000, 25000, 20000)`. -/
theorem claim_C1 (a b : ℕ) (hab : a ≤ b) (hb : b ≤ 200) :
    parseSalary (hyphenTok a b) =
      some ((a : ℚ) * 1000, (b : ℚ) * 1000, ((a : ℚ) + (b : ℚ)) * 500) ∧
    parseSalary "15-25K" = some (15000, 25000, 20000) := by
  refine ⟨?_, parseSalary_eval_15_25⟩
  rw [parseSalary_hyphenTok, hyphenParse_small b (by omega),
    salaryFinishQ_of_le hab hb]

/-- Witness for C1 at the concrete token `"15-25K"`. -/
theorem claim_C1_witness :
    parseSalary (hyphenTok 15 25) =
      some (((15 : ℕ) : ℚ) * 1000, ((25 : ℕ) : ℚ) * 1000,
        (((15 : ℕ) : ℚ) + ((25 : ℕ) : ℚ)) * 500) ∧
    parseSalary "15-25K" = some (15000, 25000, 20000) :=
  claim_C1 15 25 (by decide) (by decide)

theorem parseSalary_eval_2140 : parseSalary "2140K" = some (21000, 40000, 30500) := by
  have h : fusedTok 2140 = "2140K" := by decide
  rw [← h, parseSalary_fusedTok, fusedSalary_natDigits,
    if_pos (by norm_num : 200 < 2140), if_pos (by decide : (natDigits 2140).length = 4),
    show natOfDigits ((natDigits 2140).take 2) = 21 from by decide,
    show natOfDigits ((natDigits 2140).drop 2) = 40 from by decide,
    salaryFinishQ_of_le (by norm_num : 21 ≤ 40) (by norm_num)]
  norm_num

/-- Claim C2: a salary token with no hyphenated range takes its first digit
run; a value above 200 is split by decimal length (4 digits into 2+2, 3 digits
into 1+2, first half low and second half high, fed to the shared final
guard/swap/scale step), any other length is rejected; in particular `"2140K"`
parses to `(21000, 40000, 30500)`. -/
theorem claim_C2 (v : ℕ) (hv : 200 < v) :
    parseSalary (fusedTok v) =
      (if (natDigits v).length = 4 then
        salaryFinishQ (natOfDigits ((natDigits v).take 2))
          (natOfDigits ((natDigits v).drop 2))
      else if (natDigits v).length = 3 then
        salaryFinishQ (natOfDigits ((natDigits v).take 1))
          (natOfDigits ((natDigits v).drop 1))
      else none) ∧
    parseSalary "2140K" = some (21000, 40000, 30500) := by
  refine ⟨?_, parseSalary_eval_2140⟩
  rw [parseSalary_fusedTok, fusedSalary_natDigits, if_pos hv]

/-- Witness for C2 at the concrete token `"2140K"`. -/
theorem claim_C2_witness :
    parseSalary (fusedTok 2140) =
      (if (natDigits 2140).length = 4 then
        salaryFinishQ (natOfDigits ((natDigits 2140).take 2))
          (natOfDigits ((natDigits 2140).drop 2))
      else if (natDigits 2140).length = 3 then
        salaryFinishQ (natOfDigits ((natDigits 2140).take 1))
          (natOfDigits ((natDigits 2140).drop 1))
      else none) ∧
    parseSalary "2140K" = some (21000, 40000, 30500) :=
  claim_C2 2140 (by decide)

theorem natDigits_take_drop {n : ℕ} (h1 : 1000 ≤ n) (h2 : n ≤ 9999) :
    natOfDigits ((natDigits n).take 2) = n / 100 ∧
    natOfDigits ((natDigits n).drop 2) = n % 100 := by
  have hlen : (natDigits n).length = 4 := by
    have := natDigits_length 3 n (by norm_num; omega) (by norm_num; omega)
    simpa using this
  have hdlen : ((natDigits n).drop 2).length = 2 := by
    rw [List.length_drop, hlen]
  have hval : natOfDigits ((natDigits n).take 2) * 10 ^ 2 +
      natOfDigits ((natDigits n).drop 2) = n := by
    have := natOfDigits_append ((natDigits n).take 2) ((natDigits n).drop 2)
    rw [List.take_append_drop, natOfDigits_natDigits, hdlen] at this
    omega
  have hlt : natOfDigits ((natDigits n).drop 2) < 10 ^ 2 := by
    have := natOfDigits_lt ((natDigits n).drop 2)
      (fun c hc => mem_natDigits_shape n c (List.mem_of_mem_drop hc))
    rwa [hdlen] at this
  norm_num at hval hlt
  constructor <;> omega

/-- Claim C3: a 4-digit fused token whose halves XY, ZW satisfy XY ≤ ZW ≤ 200
parses to the same triple as the hyphenated token `XY-ZW K`
(split-then-parse equivalence). -/
theorem claim_C3 (n : ℕ) (h1 : 1000 ≤ n) (h2 : n ≤ 9999)
    (hle : n / 100 ≤ n % 100) :
    parseSalary (fusedTok n) = parseSalary (hyphenTok (n / 100) (n % 100)) := by
  have hlen : (natDigits n).length = 4 := by
    have := natDigits_length 3 n (by norm_num; omega) (by norm_num; omega)
    simpa using this
  rw [parseSalary_fusedTok, fusedSalary_natDigits, if_pos (by omega : 200 < n),
    if_pos hlen, (natDigits_take_drop h1 h2).1, (natDigits_take_drop h1 h2).2,
    parseSalary_hyphenTok, hyphenParse_small (n % 100) (by omega)]

/-- Witness for C3 at the fused token `"2140K"` against `"21-40K"`. -/
theorem claim_C3_witness :
    parseSalary (fusedTok 2140) = parseSalary (hyphenTok (2140 / 100) (2140 % 100)) :=
  claim_C3 2140 (by decide) (by decide) (by decide)

/-- Claim C4 counterexample: on `"60-80K"` both integers exceed 50, yet the
parser applies no division by 1000: it returns `(60000, 80000, 70000)`, not
the `(60, 80, 70)` that the claimed division would produce. -/
theorem claim_C4_cex :
    parseSalary "60-80K" = some (60000, 80000, 70000) ∧
    parseSalary "60-80K" ≠ some (60, 80, 70) := by
  have h : hyphenTok 60 80 = "60-80K" := by decide
  have he : parseSalary "60-80K" = some (60000, 80000, 70000) := by
    rw [← h, parseSalary_hyphenTok, hyphenParse_small 80 (by norm_num),
      salaryFinishQ_of_le (by norm_num : 60 ≤ 80) (by norm_num)]
    norm_num
  refine ⟨he, ?_⟩
  rw [he]
  intro hcontra
  simp only [Option.some.injEq, Prod.mk.injEq] at hcontra
  exact absurd hcontra.1 (by norm_num)

/-- Claim C4 amended: on a hyphenated token the parser divides both bounds by
1000 only when the first integer exceeds 1000; otherwise — including every
token whose integers are both at most 50 — the integers reach the 200-unit
sanity check unchanged.  (The `>50` test of the source merely guards entry to
the `>1000` test and never itself triggers a division.) -/
theorem claim_C4_amended (a b : ℕ) :
    parseSalary (hyphenTok a b) =
      (if 1000 < a then salaryFinishQ ((a : ℚ) / 1000) ((b : ℚ) / 1000)
       else salaryFinishQ a b) := by
  rw [parseSalary_hyphenTok]
  unfold hyphenParse
  split_ifs with h1 h2 h3 <;> first | rfl | omega

theorem parseSalary_eval_10_200 :
    parseSalary "10-200K" = some (10000, 200000, 105000) := by
  have h : hyphenTok 10 200 = "10-200K" := by decide
  rw [← h, parseSalary_hyphenTok, hyphenParse_small 200 (by norm_num),
    salaryFinishQ_of_le (by norm_num : 10 ≤ 200) (by norm_num)]
  norm_num

theorem parseSalary_eval_10_201 : parseSalary "10-201K" = none := by
  have h : hyphenTok 10 201 = "10-201K" := by decide
  rw [← h, parseSalary_hyphenTok, hyphenParse_small 201 (by norm_num),
    salaryFinishQ_reject (by norm_num : (200 : ℚ) < ((201 : ℕ) : ℚ))]

theorem salaryFinishQ_bound {l h lo hi av : ℚ}
    (hp : salaryFinishQ l h = some (lo, hi, av)) :
    lo ≤ 200 * 1000 ∧ hi ≤ 200 * 1000 := by
  unfold salaryFinishQ at hp
  by_cases h1 : 200 < l ∨ 200 < h
  · rw [if_pos h1] at hp
    exact absurd hp (by simp)
  · rw [if_neg h1] at hp
    push_neg at h1
    by_cases h2 : h < l
    · rw [if_pos h2] at hp
      simp only [Option.some.injEq, Prod.mk.injEq] at hp
      obtain ⟨e1, e2, -⟩ := hp
      exact ⟨by rw [← e1]; linarith [h1.2], by rw [← e2]; linarith [h1.1]⟩
    · rw [if_neg h2] at hp
      simp only [Option.some.injEq, Prod.mk.injEq] at hp
      obtain ⟨e1, e2, -⟩ := hp
      exact ⟨by rw [← e1]; linarith [h1.1], by rw [← e2]; linarith [h1.2]⟩

theorem parseSalary_shape {s : String} {t : ℚ × ℚ × ℚ}
    (hp : parseSalary s = some t) : ∃ l h, salaryFinishQ l h = some t := by
  have hfused : ∀ l : List Char, fusedSalary l = some t →
      ∃ lq hq, salaryFinishQ lq hq = some t := by
    intro l hf
    unfold fusedSalary at hf
    cases hrun : firstDigitRun l with
    | none => exact absurd hf (by simp [hrun])
    | some ds =>
      simp only [hrun] at hf
      split_ifs at hf with h1 h2 h3
      · exact ⟨_, _, hf⟩
      · exact ⟨_, _, hf⟩
      · exact ⟨_, _, hf⟩
  unfold parseSalary at hp
  split_ifs at hp with hcont
  · cases hsp : searchPair (cleanToken s) with
    | none => rw [hsp] at hp; exact hfused _ hp
    | some p =>
      simp only [hsp] at hp
      unfold hyphenParse at hp
      split_ifs at hp with h1 h2
      · exact ⟨_, _, hp⟩
      · exact ⟨_, _, hp⟩
      · exact ⟨_, _, hp⟩
  · exact hfused _ hp

/-- Claim C5: a bound of exactly 200 working units is accepted and 201 is
rejected; every successful parse has both monetary bounds at most 200×1000
after all transformations. -/
theorem claim_C5 (s : String) (lo hi av : ℚ)
    (hp : parseSalary s = some (lo, hi, av)) :
    (lo ≤ 200 * 1000 ∧ hi ≤ 200 * 1000) ∧
    parseSalary "10-200K" = some (10000, 200000, 105000) ∧
    parseSalary "10-201K" = none := by
  obtain ⟨l, h, hfin⟩ := parseSalary_shape hp
  exact ⟨salaryFinishQ_bound hfin, parseSalary_eval_10_200, parseSalary_eval_10_201⟩

/-- Witness for C5 at the accepted boundary token `"10-200K"`. -/
theorem claim_C5_witness :
    ((10000 : ℚ) ≤ 200 * 1000 ∧ (200000 : ℚ) ≤ 200 * 1000) ∧
    parseSalary "10-200K" = some (10000, 200000, 105000) ∧
    parseSalary "10-201K" = none :=
  claim_C5 "10-200K" 10000 200000 105000 parseSalary_eval_10_200

/-- Claim C8: the degree code is resolved by a fixed priority chain — the
no-degree-requirement condition forces 0 even alongside explicit degree
keywords; otherwise doctorate (4), master (3), bachelor (2), associate (1)
in that order of priority; with no match the default is 0.  A text with both
doctorate and bachelor keywords resolves to 4. -/
theorem claim_C8 (t : String) :
    (pyContains "学历不限" t = true ∨
        (pyContains "学历要求" t = true ∧ pyContains "不限" t = true) →
      degreeValue t = 0) ∧
    (pyContains "学历不限" t = false →
      (pyContains "学历要求" t = false ∨ pyContains "不限" t = false) →
      ((pyContains "博士" t = true → degreeValue t = 4) ∧
       (pyContains "博士" t = false → pyContains "硕士" t = true →
         degreeValue t = 3) ∧
       (pyContains "博士" t = false → pyContains "硕士" t = false →
         pyContains "本科" t = true → degreeValue t = 2) ∧
       (pyContains "博士" t = false → pyContains "硕士" t = false →
         pyContains "本科" t = false → pyContains "大专" t = true →
         degreeValue t = 1) ∧
       (pyContains "博士" t = false → pyContains "硕士" t = false →
         pyContains "本科" t = false → pyContains "大专" t = false →
         degreeValue t = 0))) ∧
    degreeValue "招募博士后及本科实习生" = 4 := by
  refine ⟨?_, ?_, by decide⟩
  · intro h
    have hcond : (pyContains "学历不限" t ||
        (pyContains "学历要求" t && pyContains "不限" t)) = true := by
      rcases h with h | ⟨h1, h2⟩
      · simp [h]
      · simp [h1, h2]
    simp [degreeValue, hcond]
  · intro hA hBC
    have hcond : (pyContains "学历不限" t ||
        (pyContains "学历要求" t && pyContains "不限" t)) = false := by
      rcases hBC with h | h <;> simp [hA, h]
    refine ⟨?_, ?_, ?_, ?_, ?_⟩
    · intro h4; simp [degreeValue, hcond, h4]
    · intro h4 h3; simp [degreeValue, hcond, h4, h3]
    · intro h4 h3 h2; simp [degreeValue, hcond, h4, h3, h2]
    · intro h4 h3 h2 h1; simp [degreeValue, hcond, h4, h3, h2, h1]
    · intro h4 h3 h2 h1; simp [degreeValue, hcond, h4, h3, h2, h1]

/-- Claim C10: any text containing "学历要求" anywhere and "不限" anywhere gets
degree code 0, overriding explicit degree keywords, since the Python condition
`A or B and C` groups as `A or (B and C)`. -/
theorem claim_C10 (t : String) (h1 : pyContains "学历要求" t = true)
    (h2 : pyContains "不限" t = true) : degreeValue t = 0 := by
  have hcond : (pyContains "学历不限" t ||
      (pyContains "学历要求" t && pyContains "不限" t)) = true := by
    simp [h1, h2]
  simp [degreeValue, hcond]

/-- Witness for C10: "学历要求：本科；经验不限" names a bachelor requirement
yet the extractor returns 0. -/
theorem claim_C10_witness :
    pyContains "本科" "学历要求：本科；经验不限" = true ∧
    degreeValue "学历要求：本科；经验不限" = 0 :=
  ⟨by decide, claim_C10 "学历要求：本科；经验不限" (by decide) (by decide)⟩

theorem digitRun_parts_append (l : List Char) : (digitRun l).1 ++ (digitRun l).2 = l := by
  induction l with
  | nil => rfl
  | cons c cs ih =>
    by_cases h : c.isDigit
    · simp [digitRun, h, ih]
    · simp [digitRun, h]

theorem matchDashKAt_none {l : List Char} (h : ∀ c ∈ l, c ≠ '-') :
    matchDashKAt l = none := by
  unfold matchDashKAt
  by_cases h1 : (digitRun l).1 = []
  · rw [if_pos h1]
  · rw [if_neg h1]
    have h2 : (digitRun l).2.head? ≠ some '-' := by
      intro hh
      cases hd : (digitRun l).2 with
      | nil => rw [hd] at hh; exact absurd hh (by simp)
      | cons x xs =>
        rw [hd] at hh
        simp only [List.head?_cons, Option.some_inj] at hh
        have hx : x ∈ l := by
          rw [← digitRun_parts_append l, hd]
          exact List.mem_append_right _ (by simp)
        exact absurd hh (h x hx)
    rw [if_neg h2]

theorem searchDashK_none {l : List Char} (h : ∀ c ∈ l, c ≠ '-') :
    searchDashK l = none := by
  induction l with
  | nil => rfl
  | cons c cs ih =>
    unfold searchDashK
    rw [matchDashKAt_none h]
    exact ih fun x hx => h x (List.mem_cons_of_mem c hx)

theorem digitRun_natDigitsK (v : ℕ) :
    digitRun (natDigits v ++ ['K']) = (natDigits v, ['K']) :=
  digitRun_digits (fun x hx => mem_natDigits_isDigit hx)
    (by intro x hx; simp only [List.head?_cons, Option.some_inj] at hx
        rw [← hx]; decide)

theorem anchorDigitsK_fusedTok (v : ℕ) :
    anchorDigitsK (natDigits v ++ ['K']) = some (natDigits v) := by
  unfold anchorDigitsK
  rw [digitRun_natDigitsK]
  rw [if_neg (natDigits_ne_nil v), if_pos (by simp)]

theorem cleanOCR_fusedTok (v : ℕ) : cleanOCR (fusedTok v) = natDigits v ++ ['K'] := by
  unfold cleanOCR fusedTok
  rw [show (String.mk (natDigits v ++ ['K'])).data = natDigits v ++ ['K'] from rfl]
  rw [List.filter_eq_self.mpr, map_toUpper_id (fun c hc => (fusedTok_chars v c hc).1)]
  intro c hc
  rcases List.mem_append.mp hc with h | h
  · obtain ⟨r, hr, rfl⟩ := mem_natDigits_shape v c h
    have : pyIsAlnum (Char.ofNat (48 + r)) = true := by interval_cases r <;> decide
    simp [this]
  · simp only [List.mem_singleton] at h
    subst h
    decide

/-- Claim C6 counterexample: the fused token `"101K"` has split parts 1 and
01 which fail the strict-increase check, yet `clean_salary` returns the
token `"101K"` instead of discarding it. -/
theorem claim_C6_cex :
    cleanSalary "101K" = some "101K" ∧ cleanSalary "101K" ≠ none := by
  have h : cleanSalary "101K" = some "101K" := by decide
  exact ⟨h, by rw [h]; simp⟩

/-- Claim C6 amended: `clean_salary` accepts a fused split only when
`part1 < part2` strictly; a fused token whose split fails that check is
discarded only when its numeric value also exceeds 200, while values at most
200 (such as "101K" or "200K") are returned unsplit rather than discarded. -/
theorem claim_C6_amended (v : ℕ) (hv : 100 < v) :
    cleanSalary (fusedTok v) =
      (if (natDigits v).length = 4 ∧
          natOfDigits ((natDigits v).take 2) < natOfDigits ((natDigits v).drop 2) then
        some (String.mk ((natDigits v).take 2 ++ '-' :: ((natDigits v).drop 2 ++ ['K'])))
      else if (natDigits v).length = 3 ∧
          natOfDigits ((natDigits v).take 1) < natOfDigits ((natDigits v).drop 1) then
        some (String.mk ((natDigits v).take 1 ++ '-' :: ((natDigits v).drop 1 ++ ['K'])))
      else if v ≤ 200 then some (fusedTok v)
      else none) := by
  have hsd : searchDashK (natDigits v ++ ['K']) = none :=
    searchDashK_none fun c hc => (fusedTok_chars v c hc).2.2
  have hne : (fusedTok v).data ≠ [] := by
    rw [show (fusedTok v).data = natDigits v ++ ['K'] from rfl]
    simp
  unfold cleanSalary
  rw [if_neg hne]
  simp only [cleanOCR_fusedTok, hsd, anchorDigitsK_fusedTok, natOfDigits_natDigits]
  simp only [hv, true_and, fusedTok]

/-- Witness for C6 at the fused token `"2040K"`, accepted as `"20-40K"`. -/
theorem claim_C6_witness :
    cleanSalary (fusedTok 2040) =
      (if (natDigits 2040).length = 4 ∧
          natOfDigits ((natDigits 2040).take 2) < natOfDigits ((natDigits 2040).drop 2) then
        some (String.mk ((natDigits 2040).take 2 ++ '-' :: ((natDigits 2040).drop 2 ++ ['K'])))
      else if (natDigits 2040).length = 3 ∧
          natOfDigits ((natDigits 2040).take 1) < natOfDigits ((natDigits 2040).drop 1) then
        some (String.mk ((natDigits 2040).take 1 ++ '-' :: ((natDigits 2040).drop 1 ++ ['K'])))
      else if 2040 ≤ 200 then some (fusedTok 2040)
      else none) :=
  claim_C6_amended 2040 (by decide)

theorem isSubL_infix_iff (n : List Char) : ∀ l, isSubL n l = true ↔ n <:+: l := by
  intro l
  induction l with
  | nil => simp [isSubL, List.isEmpty_iff, List.infix_nil]
  | cons c cs ih =>
    simp [isSubL, List.infix_cons_iff, List.isPrefixOf_iff_prefix, ih]

theorem isSubL_takeWhile {n l : List Char} {p : Char → Bool}
    (h : isSubL n (l.takeWhile p) = true) : isSubL n l = true := by
  rw [isSubL_infix_iff] at h ⊢
  exact h.trans (List.takeWhile_prefix p).isInfix

theorem cities_data_ne_nil : ∀ c ∈ targetCities, c.data ≠ [] := by decide

theorem no_kw_in_city :
    ∀ c ∈ targetCities, ∀ kw ∈ companyKeywords, isSubL kw.data c.data = false := by
  decide

theorem scanLine_city_self : ∀ c ∈ targetCities, scanLine c = some c := by decide

theorem scanLine_no_city {line : String}
    (h : ∀ c ∈ targetCities, isSubL c.data (stripEnds line.data) = false) :
    scanLine line = none := by
  unfold scanLine
  by_cases he : stripEnds line.data = []
  · rw [if_pos he]
  · rw [if_neg he]
    have hany : targetCities.any (fun c => isSubL c.data
        ((stripEnds line.data).takeWhile (fun x => x != '·'))) = false := by
      rw [List.any_eq_false]
      intro c hc hsub
      exact absurd (isSubL_takeWhile hsub) (by simp [h c hc])
    have hcond : ((stripEnds line.data).contains '·' && targetCities.any
        (fun c => isSubL c.data
          ((stripEnds line.data).takeWhile (fun x => x != '·')))) = false := by
      rw [hany, Bool.and_false]
    rw [if_neg (by rw [hcond]; simp)]
    have hfind : targetCities.find?
        (fun c => isSubL c.data (stripEnds line.data)) = none := by
      rw [List.find?_eq_none]
      intro c hc
      simp [h c hc]
    simp only [hfind]

theorem scanLine_company {city comp : String} (hc : city ∈ targetCities)
    (hsub : isSubL city.data (stripEnds comp.data) = true)
    (hkw : companyKeywords.any
      (fun kw => isSubL kw.data (stripEnds comp.data)) = true)
    (hdot : (stripEnds comp.data).contains '·' = false) :
    scanLine comp = none := by
  have hne : stripEnds comp.data ≠ [] := by
    intro he
    rw [he] at hsub
    have : city.data = [] := by simpa [isSubL, List.isEmpty_iff] using hsub
    exact absurd this (cities_data_ne_nil city hc)
  have hcond2 : ((stripEnds comp.data).contains '·' && targetCities.any
      (fun c => isSubL c.data
        ((stripEnds comp.data).takeWhile (fun x => x != '·')))) = false := by
    rw [hdot, Bool.false_and]
  unfold scanLine
  rw [if_neg hne, if_neg (by rw [hcond2]; simp)]
  cases hfind : targetCities.find?
      (fun c => isSubL c.data (stripEnds comp.data)) with
  | none =>
    have := List.find?_eq_none.mp hfind city hc
    simp [hsub] at this
  | some c0 =>
    simp only [hfind]
    have hc0mem : c0 ∈ targetCities := List.mem_of_find?_eq_some hfind
    have hno1 : ¬ ((stripEnds comp.data).length ≤ 3 ∧
        stripEnds comp.data = c0.data) := by
      rintro ⟨-, heq⟩
      obtain ⟨kw, hkwmem, hkwsub⟩ := List.any_eq_true.mp hkw
      rw [heq] at hkwsub
      exact absurd hkwsub (by simp [no_kw_in_city c0 hc0mem kw hkwmem])
    rw [if_neg hno1, hkw, if_neg (by simp)]

theorem firstSome_cons_none (l : List (Option String)) :
    firstSome (none :: l) = firstSome l := rfl

theorem firstSome_cons_some (x : String) (l : List (Option String)) :
    firstSome (some x :: l) = some x := rfl

theorem firstSome_all_none {l1 : List (Option String)}
    (h : ∀ x ∈ l1, x = none) (l2 : List (Option String)) :
    firstSome (l1 ++ l2) = firstSome l2 := by
  induction l1 with
  | nil => rfl
  | cons a as ih =>
    have ha := h a (by simp)
    subst ha
    rw [List.cons_append, firstSome_cons_none]
    exact ih fun x hx => h x (List.mem_cons_of_mem _ hx)

/-- Claim C7 counterexample: in the block with the bare line "南京" above the
company-keyword line "南京科技公司·江宁区" — whose only city-bearing line below
the bare city line is that company line — the extractor returns
"南京科技公司", a value derived from the company-keyword line via the
high-confidence '·' rule, not the bare city name. -/
theorem claim_C7_cex :
    extractCity "南京\n南京科技公司·江宁区" = "南京科技公司" ∧
    extractCity "南京\n南京科技公司·江宁区" ≠ "南京" := by
  have h : extractCity "南京\n南京科技公司·江宁区" = "南京科技公司" := by decide
  exact ⟨h, by rw [h]; decide⟩

/-- Claim C7 amended: when every line scanned before the bare city line
(lower in the text, hence earlier in the bottom-up scan) contains no city
name except for one company-keyword line containing the city, and that
company line contains no '·' separator (otherwise the high-confidence '·'
rule returns its text before the dot, as the counterexample shows), the
extractor skips the company line and returns the bare city name. -/
theorem claim_C7 (city : String) (hc : city ∈ targetCities)
    (pre mid post : List String) (comp : String)
    (hsub : isSubL city.data (stripEnds comp.data) = true)
    (hkw : companyKeywords.any
      (fun kw => isSubL kw.data (stripEnds comp.data)) = true)
    (hdot : (stripEnds comp.data).contains '·' = false)
    (hno : ∀ l ∈ mid ++ post, ∀ c ∈ targetCities,
      isSubL c.data (stripEnds l.data) = false) :
    extractCityLines (pre ++ city :: (mid ++ comp :: post)) = city ∧
    extractCity "玄武软件公司招聘\n南京\n玄武区软件大道南京科技公司" = "南京" := by
  refine ⟨?_, by decide⟩
  have hpost : ∀ x ∈ post.reverse.map scanLine, x = none := by
    intro x hx
    obtain ⟨l, hl, rfl⟩ := List.mem_map.mp hx
    exact scanLine_no_city fun c hcc =>
      hno l (List.mem_append_right mid (List.mem_reverse.mp hl)) c hcc
  have hmid : ∀ x ∈ mid.reverse.map scanLine, x = none := by
    intro x hx
    obtain ⟨l, hl, rfl⟩ := List.mem_map.mp hx
    exact scanLine_no_city fun c hcc =>
      hno l (List.mem_append_left post (List.mem_reverse.mp hl)) c hcc
  have hshape : (pre ++ city :: (mid ++ comp :: post)).reverse.map scanLine
      = post.reverse.map scanLine ++ scanLine comp ::
        (mid.reverse.map scanLine ++ scanLine city :: pre.reverse.map scanLine) := by
    simp [List.reverse_append, List.map_append]
  unfold extractCityLines
  rw [hshape, firstSome_all_none hpost, scanLine_company hc hsub hkw hdot,
    firstSome_cons_none, firstSome_all_none hmid, scanLine_city_self city hc,
    firstSome_cons_some]

/-- Witness for C7: a block whose bottom lines are a district line and a
company line containing "南京", with the bare line "南京" above them. -/
theorem claim_C7_witness :
    extractCityLines ([] ++ "南京" :: ([] ++ "南京科技公司" :: ["玄武区软件大道"])) = "南京" ∧
    extractCity "玄武软件公司招聘\n南京\n玄武区软件大道南京科技公司" = "南京" :=
  claim_C7 "南京" (by decide) [] [] ["玄武区软件大道"] "南京科技公司"
    (by decide) (by decide) (by decide) (by decide)

/-- Claim C9: every record surviving the ETL salary stage has its average
salary strictly inside the band (2000, 50000) — so never 60000 — and the
model-training re-validation again excludes any row with average salary
60000 or any value at least 50000. -/
theorem claim_C9 (ss : List String) (rows : List (ℕ × ℚ))
    (t : ℚ × ℚ × ℚ) (r : ℕ × ℚ)
    (ht : t ∈ etlSalaryRows ss) (hr : r ∈ trainRows rows) :
    (2000 < t.2.2 ∧ t.2.2 < 50000 ∧ t.2.2 ≠ 60000) ∧
    (r.2 < 50000 ∧ r.2 ≠ 60000) := by
  have h1 := (List.mem_filter.mp ht).2
  simp only [Bool.and_eq_true, decide_eq_true_eq] at h1
  have h2 := (List.mem_filter.mp hr).2
  simp only [decide_eq_true_eq] at h2
  refine ⟨⟨h1.2, h1.1, ?_⟩, h2, ?_⟩
  · intro he
    rw [he] at h1
    exact absurd h1.1 (by norm_num)
  · intro he
    rw [he] at h2
    exact absurd h2 (by norm_num)

theorem etlSalaryRows_eval :
    etlSalaryRows ["15-25K"] = [(15000, 25000, 20000)] := by
  unfold etlSalaryRows
  rw [show (["15-25K"] : List String).filterMap parseSalary =
      [(15000, 25000, 20000)] from by
    simp [List.filterMap_cons, parseSalary_eval_15_25]]
  rw [List.filter_cons]
  norm_num

/-- Witness for C9 with the parsed record of `"15-25K"` and a training row of
degree 2 and average salary 20000. -/
theorem claim_C9_witness :
    ((2000 : ℚ) < 20000 ∧ (20000 : ℚ) < 50000 ∧ (20000 : ℚ) ≠ 60000) ∧
    ((20000 : ℚ) < 50000 ∧ (20000 : ℚ) ≠ 60000) :=
  claim_C9 ["15-25K"] [(2, 20000)] (15000, 25000, 20000) (2, 20000)
    (by rw [etlSalaryRows_eval]; simp) (by decide)

end JobEtl
